import Mathlib

/-!
# Verification of the `translate` cog core (cache + language resolver)

Shallow embedding of `src/cogs/translate/cache.py`, `translator.py` and the
cache-facing part of `main.py`.  Conventions:

* Python `OrderedDict` becomes a `List (Key × CacheEntry)` kept in insertion
  order; the head is the first element of iteration (`next(iter(...))`, the
  least-recently-used end) and the last element is the most-recently-used end.
* Wall-clock time (`time.time()`, a float in the source) is modelled as an
  integer number of seconds, passed explicitly as `now` to the operations that
  read the clock.
* The cache key `f"{target_language}:{sha256(text)}"` is modelled as the pair
  `(target_language, text)`: the spec assumes the SHA-256 content hash is
  collision-free, so the hash is modelled as the identity on the text.
* Fallible code (`next(iter(...))` on an empty mapping raises
  `StopIteration`) returns `Except String`.
-/

namespace Translate

/-- Cache keys: `(target_language, content-hash-of-text)`, with the SHA-256
hash of `TranslationCache._make_key` modelled as the identity on the text
(the spec treats the digest as collision-free). -/
abbrev Key := String × String

/-- `TranslationCache._make_key`: builds the key from the text and the target
language. -/
def make_key (text target_language : String) : Key :=
  (target_language, text)

/-- `CacheEntry` from `cache.py`: one cached translation. -/
structure CacheEntry where
  translated_text : String
  source_language : String
  target_language : String
  timestamp : Int
  ttl : Int
  deriving Repr, DecidableEq

/-- `CacheEntry.is_expired`: false when `ttl <= 0`, otherwise true iff
`now - timestamp > ttl`. -/
def CacheEntry.is_expired (e : CacheEntry) (now : Int) : Bool :=
  if e.ttl ≤ 0 then false
  else decide (now - e.timestamp > e.ttl)

/-- The mutable state of `TranslationCache`: the ordered store plus the
statistics counters.  The head of `store` is the least-recently-used end. -/
structure TranslationCache where
  max_size : Int
  default_ttl : Int
  store : List (Key × CacheEntry)
  hits : Nat
  misses : Nat
  evictions : Nat
  deriving Repr, DecidableEq

/-- `key in self._cache` (ordered-dict key membership). -/
def keyMem (k : Key) (l : List (Key × CacheEntry)) : Bool :=
  l.any (fun p => p.1 == k)

/-- `self._cache[key]` read access: value of the (unique) binding of `k`. -/
def lookupEntry (k : Key) : List (Key × CacheEntry) → Option CacheEntry
  | [] => none
  | p :: rest => if p.1 == k then some p.2 else lookupEntry k rest

/-- `del self._cache[key]`: drop the binding of `k`. -/
def eraseKey (k : Key) : List (Key × CacheEntry) → List (Key × CacheEntry)
  | [] => []
  | p :: rest => if p.1 == k then rest else p :: eraseKey k rest

/-- `self._cache.move_to_end(key)`: move the binding of `k` to the
most-recently-used end (the source only calls it when `k` is present). -/
def moveToEnd (k : Key) (l : List (Key × CacheEntry)) : List (Key × CacheEntry) :=
  match l.find? (fun p => p.1 == k) with
  | none => l
  | some p => eraseKey k l ++ [p]

/-- `self._cache[key] = entry` (ordered-dict assignment): overwrite the
binding in place when `k` is present, else append at the
most-recently-used end. -/
def insertOD (k : Key) (v : CacheEntry) : List (Key × CacheEntry) → List (Key × CacheEntry)
  | [] => [(k, v)]
  | p :: rest => if p.1 == k then (k, v) :: rest else p :: insertOD k v rest

/-- `TranslationCache.get(text, target_language)`: returns the entry (or
`none`) together with the updated cache state. -/
def TranslationCache.get (s : TranslationCache) (now : Int)
    (text target_language : String) : Option CacheEntry × TranslationCache :=
  let key := make_key text target_language
  match lookupEntry key s.store with
  | none => (none, { s with misses := s.misses + 1 })
  | some entry =>
      if entry.is_expired now then
        (none, { s with store := eraseKey key s.store, misses := s.misses + 1 })
      else
        (some entry, { s with store := moveToEnd key s.store, hits := s.hits + 1 })

/-- `TranslationCache.set(text, target_language, translated_text,
source_language="auto", ttl=None)`.  The eviction branch runs whenever
`len(self._cache) >= self.max_size`, before the presence of `key` is ever
examined; `next(iter(self._cache))` on an empty store raises
`StopIteration`, modelled as `Except.error`. -/
def TranslationCache.set (s : TranslationCache) (now : Int)
    (text target_language translated_text : String)
    (source_language : String := "auto") (ttl : Option Int := none) :
    Except String TranslationCache :=
  let key := make_key text target_language
  let ttl_value := ttl.getD s.default_ttl
  let evicted : Except String TranslationCache :=
    if s.max_size ≤ (s.store.length : Int) then
      match s.store with
      | [] => Except.error "StopIteration"
      | _ :: rest => Except.ok { s with store := rest, evictions := s.evictions + 1 }
    else Except.ok s
  match evicted with
  | Except.error e => Except.error e
  | Except.ok s1 =>
      let entry : CacheEntry :=
        { translated_text := translated_text
          source_language := source_language
          target_language := target_language
          timestamp := now
          ttl := ttl_value }
      Except.ok { s1 with store := insertOD key entry s1.store }

/-- `TranslationCache.clear()`: drop every entry, keep the counters. -/
def TranslationCache.clear (s : TranslationCache) : TranslationCache :=
  { s with store := [] }

/-- `TranslationCache.cleanup_expired()`: drop every expired entry and
return how many were removed. -/
def TranslationCache.cleanup_expired (s : TranslationCache) (now : Int) :
    Nat × TranslationCache :=
  let store2 := s.store.filter (fun p => !(p.2.is_expired now))
  (s.store.length - store2.length, { s with store := store2 })

/-- The dictionary returned by `TranslationCache.get_stats`. -/
structure CacheStats where
  size : Nat
  max_size : Int
  hits : Nat
  misses : Nat
  hit_rate : ℚ
  evictions : Nat
  deriving Repr, DecidableEq

/-- `TranslationCache.get_stats()`: a read-only snapshot of the counters,
with `hit_rate = hits / (hits + misses)` when the denominator is positive
and `0` otherwise. -/
def TranslationCache.get_stats (s : TranslationCache) : CacheStats :=
  let total_requests := s.hits + s.misses
  let hit_rate : ℚ :=
    if 0 < total_requests then (s.hits : ℚ) / (total_requests : ℚ) else 0
  { size := s.store.length
    max_size := s.max_size
    hits := s.hits
    misses := s.misses
    hit_rate := hit_rate
    evictions := s.evictions }

/-- `TranslationCache.reset_stats()`: zero the three counters, keep the
entries. -/
def TranslationCache.reset_stats (s : TranslationCache) : TranslationCache :=
  { s with hits := 0, misses := 0, evictions := 0 }

/-! ## Language resolver (`translator.py`)

`Translator.normalize_language` walks the `googletrans.LANGUAGES` directory,
an ordered mapping from language code to lowercase display name.  The
resolver is embedded parametrically over that directory (the spec calls it
"polymorphic over an injected code-to-name directory"). -/

/-- Modelled from the spec: the injected code-to-name language directory
(`googletrans.LANGUAGES`), which lives in the third-party `googletrans`
package and not under `src/`.  A representative fragment with the entries
the spec names: plain codes mapping to lowercase display names, the two
Chinese variants included. -/
def gDir : List (String × String) :=
  [("af", "afrikaans"),
   ("en", "english"),
   ("es", "spanish"),
   ("fr", "french"),
   ("zh-cn", "chinese (simplified)"),
   ("zh-tw", "chinese (traditional)")]

/-- Contiguous-sublist test on character lists. -/
def listContains (sub : List Char) : List Char → Bool
  | [] => sub.isEmpty
  | c :: rest => sub.isPrefixOf (c :: rest) || listContains sub rest

/-- Python substring test `sub in s`, over the underlying character lists. -/
def strContains (s sub : String) : Bool :=
  listContains sub.data s.data

/-- Python `str.lower()`, character-wise (`Char.toLower`, an ASCII
approximation of Unicode lowercasing — all directory data is ASCII). -/
def pyLower (s : String) : String :=
  String.mk (s.data.map Char.toLower)

/-- Python `str.strip()`: drop leading and trailing whitespace. -/
def pyStrip (s : String) : String :=
  String.mk
    (((s.data.dropWhile Char.isWhitespace).reverse.dropWhile Char.isWhitespace).reverse)

/-- `language.lower().strip()`: the canonical form every resolver lookup
uses. -/
def canon (s : String) : String :=
  pyStrip (pyLower s)

/-- The `for code, name in LANGUAGES.items()` loop of
`Translator.normalize_language`: return on the first entry whose lowercased
display name equals the input, collapsing any name containing `"chinese"` to
the fixed value `"chinese (simplified)"`. -/
def reverseLookup (dir : List (String × String)) (t : String) : Option String :=
  match dir with
  | [] => none
  | (code, name) :: rest =>
      if pyLower name == t then
        some (if strContains (pyLower name) "chinese" then "chinese (simplified)" else code)
      else reverseLookup rest t

/-- `Translator.normalize_language`: lowercase and strip, try direct code
lookup, then the reverse display-name scan, then the Chinese partial-match
fallback, else `none`. -/
def Translator.normalize_language (dir : List (String × String))
    (language : String) : Option String :=
  let language_lower := canon language
  if dir.any (fun p => p.1 == language_lower) then
    some language_lower
  else
    match reverseLookup dir language_lower with
    | some code => some code
    | none =>
        if strContains language_lower "chinese" ||
            language_lower == "zh" || language_lower == "ch" then
          some "chinese (simplified)"
        else
          none

/-- Outcome of the raw `googletrans.Translator.translate` call (the external
web service): either a translated text, a timeout (`asyncio.TimeoutError`),
or any other exception, which `Translator.translate` wraps. -/
inductive ApiFailure where
  | timeout
  | service (msg : String)
  deriving Repr, DecidableEq

/-- The exceptions `Translator.translate` lets escape:
`LanguageNotFoundError`, `TranslationAPIError`, `asyncio.TimeoutError`. -/
inductive TranslateError where
  | language_not_found
  | api_error (msg : String)
  | timeout
  deriving Repr, DecidableEq

/-- `Translator.translate(text, target_language, source_language)`,
parametric over the external web call `api`: empty or whitespace-only text
short-circuits to `""`; an unrecognized target raises
`LanguageNotFoundError`; a timeout is re-raised as-is; any other API failure
is wrapped in `TranslationAPIError`. -/
def Translator.translate (dir : List (String × String))
    (api : String → String → String → Except ApiFailure String)
    (text target_language : String) (source_language : String := "auto") :
    Except TranslateError String :=
  if text == "" || pyStrip text == "" then Except.ok ""
  else
    match Translator.normalize_language dir target_language with
    | none => Except.error TranslateError.language_not_found
    | some target =>
        match api text target source_language with
        | Except.ok r => Except.ok r
        | Except.error ApiFailure.timeout => Except.error TranslateError.timeout
        | Except.error (ApiFailure.service m) =>
            Except.error (TranslateError.api_error m)

/-! ## The translation flow (`main.py`) -/

/-- `\w` of `CUSTOM_EMOJI_PATTERN` (ASCII approximation of the regex word
class). -/
def isWordChar (c : Char) : Bool :=
  c.isAlphanum || c == '_'

/-- Match the `\w+:\d+>` tail of `CUSTOM_EMOJI_PATTERN` at the head of
`cs`; on success return the characters after the match. -/
def matchEmojiBody (cs : List Char) : Option (List Char) :=
  let ws := cs.takeWhile isWordChar
  let rest1 := cs.dropWhile isWordChar
  if ws.isEmpty then none
  else
    match rest1 with
    | ':' :: rest2 =>
        let ds := rest2.takeWhile Char.isDigit
        let rest3 := rest2.dropWhile Char.isDigit
        if ds.isEmpty then none
        else
          match rest3 with
          | '>' :: rest4 => some rest4
          | _ => none
    | _ => none

/-- Try to match `CUSTOM_EMOJI_PATTERN = <a?:\w+:\d+>` at the head of `cs`;
on success return the characters after the match. -/
def matchEmoji (cs : List Char) : Option (List Char) :=
  match cs with
  | '<' :: 'a' :: ':' :: rest => matchEmojiBody rest
  | '<' :: ':' :: rest => matchEmojiBody rest
  | _ => none

/-- `CUSTOM_EMOJI_PATTERN.sub("", text)` on character lists: leftmost,
non-overlapping deletion of matches.  `fuel` bounds the recursion; every
step consumes at least one character, so `fuel = cs.length` (as used by
`clean_text`) never runs out. -/
def subEmojiAux : Nat → List Char → List Char
  | 0, cs => cs
  | _ + 1, [] => []
  | fuel + 1, c :: rest =>
      match matchEmoji (c :: rest) with
      | some rest2 => subEmojiAux fuel rest2
      | none => c :: subEmojiAux fuel rest

/-- `Translation._clean_text`: strip Discord custom emojis, then `strip()`
the result. -/
def clean_text (text : String) : String :=
  pyStrip (String.mk (subEmojiAux text.data.length text.data))

/-- The exceptions that can escape `Translation._do_translate`: any
translate-layer error, or the cache's own `StopIteration` slip. -/
inductive DoFailure where
  | translate_failure (e : TranslateError)
  | cache_failure (msg : String)
  deriving Repr, DecidableEq

/-- `Translation._do_translate(text, target_language, source_language)`:
clean the text, consult the cache, on a miss call the translator and store
a successful result.  Returns the outcome paired with the resulting cache
state (on an exception, the state at the moment the exception escaped). -/
def Translation.do_translate (dir : List (String × String))
    (api : String → String → String → Except ApiFailure String)
    (s : TranslationCache) (now : Int) (text target_language : String)
    (source_language : String := "auto") :
    Except DoFailure (Option String) × TranslationCache :=
  if text == "" || pyStrip text == "" then (Except.ok none, s)
  else
    let text1 := clean_text text
    if text1 == "" then (Except.ok none, s)
    else
      let res := s.get now text1 target_language
      match res.1 with
      | some cached => (Except.ok (some cached.translated_text), res.2)
      | none =>
          match Translator.translate dir api text1 target_language source_language with
          | Except.error e => (Except.error (DoFailure.translate_failure e), res.2)
          | Except.ok translated =>
              match res.2.set now text1 target_language translated source_language with
              | Except.error m => (Except.error (DoFailure.cache_failure m), res.2)
              | Except.ok s2 => (Except.ok (some translated), s2)

/-! ## Helper lemmas about the ordered store -/

theorem lookupEntry_eq_none {k : Key} {l : List (Key × CacheEntry)} :
    lookupEntry k l = none ↔ ∀ p ∈ l, p.1 ≠ k := by
  induction l with
  | nil => simp [lookupEntry]
  | cons p rest ih =>
      by_cases h : p.1 = k
      · simp [lookupEntry, h]
      · simp [lookupEntry, h, ih, beq_iff_eq]

theorem keyMem_eq_true {k : Key} {l : List (Key × CacheEntry)} :
    keyMem k l = true ↔ ∃ p ∈ l, p.1 = k := by
  simp [keyMem, List.any_eq_true, beq_iff_eq]

theorem keyMem_eq_false {k : Key} {l : List (Key × CacheEntry)} :
    keyMem k l = false ↔ lookupEntry k l = none := by
  simp [keyMem, List.any_eq_false, lookupEntry_eq_none, beq_iff_eq]

theorem lookupEntry_eraseKey_self {k : Key} {l : List (Key × CacheEntry)}
    (hnd : (l.map Prod.fst).Nodup) :
    lookupEntry k (eraseKey k l) = none := by
  induction l with
  | nil => simp [eraseKey, lookupEntry]
  | cons p rest ih =>
      simp only [List.map_cons, List.nodup_cons] at hnd
      by_cases h : p.1 = k
      · rw [eraseKey, if_pos (beq_iff_eq.mpr h)]
        rw [lookupEntry_eq_none]
        intro q hq hqk
        have hmem : q.1 ∈ List.map Prod.fst rest := List.mem_map_of_mem Prod.fst hq
        rw [hqk, ← h] at hmem
        exact hnd.1 hmem
      · rw [eraseKey, if_neg (by simp [beq_iff_eq, h])]
        rw [lookupEntry, if_neg (by simp [beq_iff_eq, h])]
        exact ih hnd.2

theorem find?_eq_of_lookupEntry {k : Key} {l : List (Key × CacheEntry)}
    {e : CacheEntry} (h : lookupEntry k l = some e) :
    l.find? (fun p => p.1 == k) = some (k, e) := by
  induction l with
  | nil => simp [lookupEntry] at h
  | cons p rest ih =>
      by_cases hp : p.1 = k
      · rw [lookupEntry, if_pos (beq_iff_eq.mpr hp)] at h
        rw [List.find?_cons_of_pos rest (show ((p.1 == k) = true) from beq_iff_eq.mpr hp)]
        obtain ⟨p1, p2⟩ := p
        simp only at hp
        simp only [Option.some.injEq] at h
        rw [hp, h]
      · rw [lookupEntry, if_neg (by simp [beq_iff_eq, hp])] at h
        rw [List.find?_cons_of_neg rest (by simp [beq_iff_eq, hp])]
        exact ih h

theorem insertOD_append_of_none {k : Key} {v : CacheEntry}
    {l : List (Key × CacheEntry)} (h : lookupEntry k l = none) :
    insertOD k v l = l ++ [(k, v)] := by
  induction l with
  | nil => rfl
  | cons p rest ih =>
      rw [lookupEntry] at h
      by_cases hp : p.1 = k
      · rw [if_pos (beq_iff_eq.mpr hp)] at h
        exact absurd h (by simp)
      · rw [if_neg (by simp [beq_iff_eq, hp])] at h
        rw [insertOD, if_neg (by simp [beq_iff_eq, hp]), ih h, List.cons_append]

theorem insertOD_map_fst_of_mem {k : Key} {v : CacheEntry}
    {l : List (Key × CacheEntry)} (h : keyMem k l = true) :
    (insertOD k v l).map Prod.fst = l.map Prod.fst := by
  induction l with
  | nil => simp [keyMem] at h
  | cons p rest ih =>
      by_cases hp : p.1 = k
      · rw [insertOD, if_pos (beq_iff_eq.mpr hp)]
        simp [hp]
      · rw [insertOD, if_neg (by simp [beq_iff_eq, hp])]
        have h2 : keyMem k rest = true := by
          rw [keyMem, List.any_eq_true] at h ⊢
          rcases h with ⟨q, hq, hqk⟩
          rcases List.mem_cons.mp hq with rfl | hq2
          · exact absurd (beq_iff_eq.mp hqk) hp
          · exact ⟨q, hq2, hqk⟩
        simp [ih h2]

theorem mem_keys_insertOD {k k' : Key} {v : CacheEntry}
    {l : List (Key × CacheEntry)} (h : k' ∈ l.map Prod.fst) :
    k' ∈ (insertOD k v l).map Prod.fst := by
  by_cases hm : keyMem k l = true
  · rw [insertOD_map_fst_of_mem hm]
    exact h
  · rw [insertOD_append_of_none (keyMem_eq_false.mp (by simpa using hm))]
    simp [h]

theorem not_mem_keys_insertOD {k k' : Key} {v : CacheEntry}
    {l : List (Key × CacheEntry)} (h : k' ∉ l.map Prod.fst) (hk : k' ≠ k) :
    k' ∉ (insertOD k v l).map Prod.fst := by
  by_cases hm : keyMem k l = true
  · rw [insertOD_map_fst_of_mem hm]
    exact h
  · rw [insertOD_append_of_none (keyMem_eq_false.mp (by simpa using hm))]
    simp only [List.map_append, List.map_cons, List.map_nil, List.mem_append,
      List.mem_cons, List.not_mem_nil, or_false]
    rintro (h1 | h2)
    · exact h h1
    · exact hk h2

/-! ## Concrete fixtures used by witnesses and counterexamples -/

/-- A cache entry holding the translation `txt`, written at time `0` with
`ttl = 0` (never expires). -/
def entryFor (txt : String) : CacheEntry :=
  { translated_text := txt
    source_language := "auto"
    target_language := "en"
    timestamp := 0
    ttl := 0 }

/-- A two-entry store: key `a` at the least-recently-used end, key `b` at
the most-recently-used end. -/
def storeAB : List (Key × CacheEntry) :=
  [(make_key "a" "en", entryFor "A"), (make_key "b" "en", entryFor "B")]

/-- A cache at full capacity (`max_size = 2`) holding `storeAB`. -/
def cacheAB2 : TranslationCache :=
  { max_size := 2, default_ttl := 10, store := storeAB
    hits := 0, misses := 0, evictions := 0 }

/-- A cache well below capacity (`max_size = 10`) holding `storeAB`. -/
def cacheAB10 : TranslationCache :=
  { cacheAB2 with max_size := 10 }

/-- An empty cache configured with `max_size = 0`. -/
def cacheEmpty0 : TranslationCache :=
  { max_size := 0, default_ttl := 0, store := []
    hits := 0, misses := 0, evictions := 0 }

/-- An empty cache with the usual positive capacity. -/
def cacheEmpty5 : TranslationCache :=
  { max_size := 5, default_ttl := 10, store := []
    hits := 0, misses := 0, evictions := 0 }

/-- An empty cache with some traffic already counted. -/
def cacheHM : TranslationCache :=
  { max_size := 5, default_ttl := 10, store := []
    hits := 3, misses := 1, evictions := 2 }

/-- An external-call stand-in that always fails with a service error. -/
def apiFail : String → String → String → Except ApiFailure String :=
  fun _ _ _ => Except.error (ApiFailure.service "boom")

/-! ## C8 — clear / reset_stats frame conditions -/

/-- C8: `clear` removes every entry (size becomes 0) and leaves `hits`,
`misses` and `evictions` unchanged; `reset_stats` zeroes `hits`, `misses`
and `evictions` and leaves the store, its order, the size, and the
configuration unchanged. -/
theorem clear_reset_stats_contract (s : TranslationCache) :
    (s.clear.store = [] ∧ s.clear.store.length = 0 ∧
      s.clear.hits = s.hits ∧ s.clear.misses = s.misses ∧
      s.clear.evictions = s.evictions) ∧
    (s.reset_stats.hits = 0 ∧ s.reset_stats.misses = 0 ∧
      s.reset_stats.evictions = 0 ∧ s.reset_stats.store = s.store ∧
      s.reset_stats.store.length = s.store.length ∧
      s.reset_stats.max_size = s.max_size ∧
      s.reset_stats.default_ttl = s.default_ttl) :=
  ⟨⟨rfl, rfl, rfl, rfl, rfl⟩, rfl, rfl, rfl, rfl, rfl, rfl, rfl⟩

/-! ## C9 — get_stats -/

/-- C9: `get_stats` reports the current size, the configured `max_size`,
the three counters, and `hit_rate = hits / (hits + misses)` when
`hits + misses > 0`, else `0`. -/
theorem get_stats_contract (s : TranslationCache) :
    s.get_stats.size = s.store.length ∧
    s.get_stats.max_size = s.max_size ∧
    s.get_stats.hits = s.hits ∧
    s.get_stats.misses = s.misses ∧
    s.get_stats.evictions = s.evictions ∧
    (0 < s.hits + s.misses →
      s.get_stats.hit_rate = (s.hits : ℚ) / ((s.hits : ℚ) + (s.misses : ℚ))) ∧
    (s.hits + s.misses = 0 → s.get_stats.hit_rate = 0) := by
  refine ⟨rfl, rfl, rfl, rfl, rfl, ?_, ?_⟩
  · intro h
    simp only [TranslationCache.get_stats, if_pos h]
    push_cast
    ring
  · intro h
    simp only [TranslationCache.get_stats, h]
    norm_num

/-- C9 witness: `get_stats` on a cache with 3 hits, 1 miss, 2 evictions. -/
theorem get_stats_contract_witness :
    cacheHM.get_stats.size = cacheHM.store.length ∧
    cacheHM.get_stats.max_size = cacheHM.max_size ∧
    cacheHM.get_stats.hits = cacheHM.hits ∧
    cacheHM.get_stats.misses = cacheHM.misses ∧
    cacheHM.get_stats.evictions = cacheHM.evictions ∧
    cacheHM.get_stats.hit_rate = (cacheHM.hits : ℚ) / ((cacheHM.hits : ℚ) + (cacheHM.misses : ℚ)) := by
  have h := get_stats_contract cacheHM
  exact ⟨h.1, h.2.1, h.2.2.1, h.2.2.2.1, h.2.2.2.2.1, h.2.2.2.2.2.1 (by decide)⟩

/-! ## Behaviour lemmas for `get` and `set` -/

theorem is_expired_iff (e : CacheEntry) (t : Int) :
    e.is_expired t = true ↔ (0 < e.ttl ∧ e.ttl < t - e.timestamp) := by
  simp only [CacheEntry.is_expired]
  split_ifs with h
  · simp only [Bool.false_eq_true, false_iff]
    omega
  · simp only [gt_iff_lt, decide_eq_true_eq]
    omega

theorem get_eq_of_none {s : TranslationCache} {now : Int} {text tl : String}
    (h : lookupEntry (make_key text tl) s.store = none) :
    s.get now text tl = (none, { s with misses := s.misses + 1 }) := by
  simp only [TranslationCache.get, h]

theorem get_eq_of_expired {s : TranslationCache} {now : Int} {text tl : String}
    {e : CacheEntry} (h : lookupEntry (make_key text tl) s.store = some e)
    (hx : e.is_expired now = true) :
    s.get now text tl =
      (none, { s with store := eraseKey (make_key text tl) s.store,
                      misses := s.misses + 1 }) := by
  simp only [TranslationCache.get, h, hx, if_true]

theorem get_eq_of_valid {s : TranslationCache} {now : Int} {text tl : String}
    {e : CacheEntry} (h : lookupEntry (make_key text tl) s.store = some e)
    (hx : e.is_expired now = false) :
    s.get now text tl =
      (some e, { s with store := moveToEnd (make_key text tl) s.store,
                        hits := s.hits + 1 }) := by
  simp only [TranslationCache.get, h, hx, Bool.false_eq_true, if_false]

theorem moveToEnd_getLast {k : Key} {l : List (Key × CacheEntry)}
    {e : CacheEntry} (h : lookupEntry k l = some e) :
    (moveToEnd k l).getLast? = some (k, e) := by
  rw [moveToEnd, find?_eq_of_lookupEntry h]
  exact List.getLast?_concat _

/-! ## C5 — the get contract -/

/-- C5: on an absent key, `get` returns `none`, bumps `misses` by one and
changes nothing else; on an expired entry (`expired` iff `ttl > 0` and
`now - created_at > ttl`, so `ttl = 0` never expires), `get` deletes the
entry, bumps `misses` and returns `none`; on a valid entry, `get` returns
the stored entry unchanged, bumps `hits` by one and moves the entry to the
most-recently-used end. -/
theorem get_contract (s : TranslationCache) (now : Int) (text tl : String)
    (hnd : (s.store.map Prod.fst).Nodup) :
    (lookupEntry (make_key text tl) s.store = none →
      (s.get now text tl).1 = none ∧
      (s.get now text tl).2.misses = s.misses + 1 ∧
      (s.get now text tl).2.hits = s.hits ∧
      (s.get now text tl).2.evictions = s.evictions ∧
      (s.get now text tl).2.store = s.store) ∧
    (∀ e, lookupEntry (make_key text tl) s.store = some e →
      e.is_expired now = true →
      (s.get now text tl).1 = none ∧
      (s.get now text tl).2.misses = s.misses + 1 ∧
      (s.get now text tl).2.hits = s.hits ∧
      (s.get now text tl).2.evictions = s.evictions ∧
      lookupEntry (make_key text tl) (s.get now text tl).2.store = none) ∧
    (∀ e, lookupEntry (make_key text tl) s.store = some e →
      e.is_expired now = false →
      (s.get now text tl).1 = some e ∧
      (s.get now text tl).2.hits = s.hits + 1 ∧
      (s.get now text tl).2.misses = s.misses ∧
      (s.get now text tl).2.evictions = s.evictions ∧
      (s.get now text tl).2.store.getLast? = some (make_key text tl, e)) ∧
    (∀ e : CacheEntry, ∀ t : Int,
      e.is_expired t = true ↔ (0 < e.ttl ∧ e.ttl < t - e.timestamp)) := by
  refine ⟨?_, ?_, ?_, fun e t => is_expired_iff e t⟩
  · intro h
    rw [get_eq_of_none h]
    exact ⟨rfl, rfl, rfl, rfl, rfl⟩
  · intro e h hx
    rw [get_eq_of_expired h hx]
    exact ⟨rfl, rfl, rfl, rfl, lookupEntry_eraseKey_self hnd⟩
  · intro e h hx
    rw [get_eq_of_valid h hx]
    exact ⟨rfl, rfl, rfl, rfl, moveToEnd_getLast h⟩

/-- C5 witness: a valid hit on `cacheAB2` returns the stored entry, bumps
`hits` and moves key `a` to the most-recently-used end. -/
theorem get_contract_witness :
    (cacheAB2.get 5 "a" "en").1 = some (entryFor "A") ∧
    (cacheAB2.get 5 "a" "en").2.hits = cacheAB2.hits + 1 ∧
    (cacheAB2.get 5 "a" "en").2.misses = cacheAB2.misses ∧
    (cacheAB2.get 5 "a" "en").2.store.getLast? = some (make_key "a" "en", entryFor "A") := by
  have h := (get_contract cacheAB2 5 "a" "en" (by decide)).2.2.1
    (entryFor "A") (by decide) (by decide)
  exact ⟨h.1, h.2.1, h.2.2.1, h.2.2.2.2⟩

/-- The `CacheEntry` that `set(text, tl, translated, src, ttl)` constructs
when the effective ttl is `ttlv`. -/
def builtEntry (now : Int) (tl translated src : String) (ttlv : Int) : CacheEntry :=
  { translated_text := translated, source_language := src,
    target_language := tl, timestamp := now, ttl := ttlv }

theorem set_eq_of_room {s : TranslationCache} {now : Int}
    {text tl translated src : String} {ttl : Option Int}
    (h : (s.store.length : Int) < s.max_size) :
    s.set now text tl translated src ttl =
      Except.ok
        { s with
          store := insertOD (make_key text tl)
                     (builtEntry now tl translated src (ttl.getD s.default_ttl))
                     s.store } := by
  simp only [TranslationCache.set, builtEntry,
    if_neg (by omega : ¬ s.max_size ≤ (s.store.length : Int))]

theorem set_eq_of_full {s : TranslationCache} {now : Int}
    {text tl translated src : String} {ttl : Option Int}
    {p : Key × CacheEntry} {rest : List (Key × CacheEntry)}
    (hstore : s.store = p :: rest)
    (h : s.max_size ≤ (s.store.length : Int)) :
    s.set now text tl translated src ttl =
      Except.ok
        { s with
          store := insertOD (make_key text tl)
                     (builtEntry now tl translated src (ttl.getD s.default_ttl))
                     rest,
          evictions := s.evictions + 1 } := by
  rw [hstore] at h
  simp only [TranslationCache.set, builtEntry, hstore, if_pos h]

theorem set_eq_of_empty_overflow {s : TranslationCache} {now : Int}
    {text tl translated src : String} {ttl : Option Int}
    (hstore : s.store = []) (h : s.max_size ≤ 0) :
    s.set now text tl translated src ttl = Except.error "StopIteration" := by
  have h2 : s.max_size ≤ (s.store.length : Int) := by
    rw [hstore]
    simpa using h
  simp only [TranslationCache.set, hstore, if_pos (hstore ▸ h2)]

/-! ## C1 — when does `set` evict? -/

/-- C1 counterexample: on `cacheAB2` (size 2, `max_size` 2) the key of
`("b", "en")` is already present, yet `set("b", "en", ...)` still evicts
the least-recently-used entry `("a", "en")` and increments `evictions`. -/
theorem set_eviction_on_overwrite_cex :
    keyMem (make_key "b" "en") cacheAB2.store = true ∧
    (cacheAB2.set 0 "b" "en" "B2").toOption.map
        (fun s2 => (s2.evictions, keyMem (make_key "a" "en") s2.store)) =
      some (1, false) := by decide

/-- C1 amended: `set` evicts the head entry and increments `evictions` by
exactly one whenever the current size is at least `max_size`, whether or
not the computed key is already present; when the size is below `max_size`
no entry is removed and `evictions` is unchanged. -/
theorem set_eviction_contract (s : TranslationCache) (now : Int)
    (text tl translated src : String) (ttl : Option Int)
    (hnd : (s.store.map Prod.fst).Nodup) :
    ((s.store.length : Int) < s.max_size →
      (s.set now text tl translated src ttl).toOption.map
          (fun s2 => s2.evictions) = some s.evictions ∧
      (s.set now text tl translated src ttl).toOption.map
          (fun s2 => (s.store.map Prod.fst).all
            (fun k => (s2.store.map Prod.fst).contains k)) = some true) ∧
    (s.max_size ≤ (s.store.length : Int) → s.store ≠ [] →
      (s.set now text tl translated src ttl).toOption.map
          (fun s2 => s2.evictions) = some (s.evictions + 1) ∧
      (∀ k0, s.store.head?.map Prod.fst = some k0 → k0 ≠ make_key text tl →
        (s.set now text tl translated src ttl).toOption.map
            (fun s2 => (s2.store.map Prod.fst).contains k0) = some false)) := by
  constructor
  · intro h
    rw [set_eq_of_room h]
    refine ⟨rfl, congrArg some ?_⟩
    rw [List.all_eq_true]
    intro k hk
    rw [List.contains_iff_exists_mem_beq]
    exact ⟨k, mem_keys_insertOD hk, beq_iff_eq.mpr rfl⟩
  · intro h hne
    obtain ⟨p, rest, hstore⟩ : ∃ p rest, s.store = p :: rest := by
      cases hs : s.store with
      | nil => exact absurd hs hne
      | cons p rest => exact ⟨p, rest, rfl⟩
    rw [set_eq_of_full hstore h]
    refine ⟨rfl, ?_⟩
    intro k0 hk0 hkne
    rw [hstore] at hk0
    have hk0p : p.1 = k0 := by simpa using hk0
    have hnotin : k0 ∉ rest.map Prod.fst := by
      rw [hstore] at hnd
      simp only [List.map_cons, List.nodup_cons] at hnd
      rw [← hk0p]
      exact hnd.1
    have hni := not_mem_keys_insertOD (k := make_key text tl)
      (v := builtEntry now tl translated src (ttl.getD s.default_ttl)) hnotin hkne
    refine congrArg some ?_
    rw [Bool.eq_false_iff]
    intro hcon
    obtain ⟨a, ha, hab⟩ := List.contains_iff_exists_mem_beq.mp hcon
    exact hni (beq_iff_eq.mp hab ▸ ha)

/-- C1 amended witness: inserting a fresh key into `cacheAB10` (below
capacity) evicts nothing; inserting into the full `cacheAB2` evicts key
`("a", "en")`. -/
theorem set_eviction_contract_witness :
    ((cacheAB10.set 0 "c" "en" "C").toOption.map
        (fun s2 => s2.evictions) = some cacheAB10.evictions ∧
      (cacheAB10.set 0 "c" "en" "C").toOption.map
        (fun s2 => (cacheAB10.store.map Prod.fst).all
          (fun k => (s2.store.map Prod.fst).contains k)) = some true) ∧
    ((cacheAB2.set 0 "c" "en" "C").toOption.map
        (fun s2 => s2.evictions) = some (cacheAB2.evictions + 1) ∧
      (cacheAB2.set 0 "c" "en" "C").toOption.map
        (fun s2 => (s2.store.map Prod.fst).contains (make_key "a" "en")) = some false) := by
  refine ⟨(set_eviction_contract cacheAB10 0 "c" "en" "C" "auto" none (by decide)).1 (by decide), ?_⟩
  have h := (set_eviction_contract cacheAB2 0 "c" "en" "C" "auto" none
    (by decide)).2 (by decide) (by decide)
  exact ⟨h.1, h.2 (make_key "a" "en") (by decide) (by decide)⟩

/-! ## C2 — recency order maintained by `set` and `get` -/

/-- C2 counterexample: on `cacheAB10`, key `("a", "en")` is present at the
least-recently-used end; overwriting it with `set` leaves the key order
unchanged, so the freshly written entry does not occupy the
most-recently-used position. -/
theorem set_overwrite_not_mru_cex :
    keyMem (make_key "a" "en") cacheAB10.store = true ∧
    (cacheAB10.set 0 "a" "en" "A2").toOption.map
        (fun s2 => s2.store.map Prod.fst) =
      some [make_key "a" "en", make_key "b" "en"] ∧
    (cacheAB10.set 0 "a" "en" "A2").toOption.map
        (fun s2 => s2.store.getLast?.map Prod.fst) ≠
      some (some (make_key "a" "en")) := by decide

/-- C2 amended: below capacity, `set` of a key that is not present appends
it at the most-recently-used end, while `set` of a present key overwrites
in place, preserving the whole key order (so a below-capacity overwrite
never becomes most-recently-used); at capacity, `set` evicts the head
(least-recently-used) entry first and then inserts into the remainder the
same way — appended at the most-recently-used end when the key is absent
from the remainder (including when it was the evicted head's own key),
overwritten in place otherwise, preserving the remainder's order.  A valid
`get` hit moves its entry to the most-recently-used end. -/
theorem set_recency_contract (s : TranslationCache) (now : Int)
    (text tl translated src : String) (ttl : Option Int) :
    (keyMem (make_key text tl) s.store = false →
      (s.store.length : Int) < s.max_size →
      (s.set now text tl translated src ttl).toOption.map
          (fun s2 => s2.store.map Prod.fst) =
        some (s.store.map Prod.fst ++ [make_key text tl])) ∧
    (keyMem (make_key text tl) s.store = true →
      (s.store.length : Int) < s.max_size →
      (s.set now text tl translated src ttl).toOption.map
          (fun s2 => s2.store.map Prod.fst) =
        some (s.store.map Prod.fst)) ∧
    (∀ p rest, s.store = p :: rest →
      s.max_size ≤ (s.store.length : Int) →
      keyMem (make_key text tl) rest = false →
      (s.set now text tl translated src ttl).toOption.map
          (fun s2 => s2.store.map Prod.fst) =
        some (rest.map Prod.fst ++ [make_key text tl])) ∧
    (∀ p rest, s.store = p :: rest →
      s.max_size ≤ (s.store.length : Int) →
      keyMem (make_key text tl) rest = true →
      (s.set now text tl translated src ttl).toOption.map
          (fun s2 => s2.store.map Prod.fst) =
        some (rest.map Prod.fst)) ∧
    (∀ e, lookupEntry (make_key text tl) s.store = some e →
      e.is_expired now = false →
      (s.get now text tl).2.store.getLast? = some (make_key text tl, e)) := by
  refine ⟨?_, ?_, ?_, ?_, ?_⟩
  · intro hm h
    rw [set_eq_of_room h]
    refine congrArg some ?_
    rw [insertOD_append_of_none (keyMem_eq_false.mp hm)]
    simp
  · intro hm h
    rw [set_eq_of_room h]
    exact congrArg some (insertOD_map_fst_of_mem hm)
  · intro p rest hstore h hm
    rw [set_eq_of_full hstore h]
    refine congrArg some ?_
    rw [insertOD_append_of_none (keyMem_eq_false.mp hm)]
    simp
  · intro p rest hstore h hm
    rw [set_eq_of_full hstore h]
    exact congrArg some (insertOD_map_fst_of_mem hm)
  · intro e h hx
    rw [get_eq_of_valid h hx]
    exact moveToEnd_getLast h

/-- C2 amended witness: below capacity a fresh insert lands at the
most-recently-used end and an overwrite preserves the order; at capacity,
overwriting the evicted head's own key re-appends it at the
most-recently-used end while overwriting a surviving key leaves the
remainder's order; a hit refreshes recency. -/
theorem set_recency_contract_witness :
    (cacheAB10.set 0 "c" "en" "C").toOption.map
        (fun s2 => s2.store.map Prod.fst) =
      some (cacheAB10.store.map Prod.fst ++ [make_key "c" "en"]) ∧
    (cacheAB10.set 0 "a" "en" "A2").toOption.map
        (fun s2 => s2.store.map Prod.fst) =
      some (cacheAB10.store.map Prod.fst) ∧
    (cacheAB2.set 0 "a" "en" "A2").toOption.map
        (fun s2 => s2.store.map Prod.fst) =
      some ([(make_key "b" "en", entryFor "B")].map Prod.fst ++ [make_key "a" "en"]) ∧
    (cacheAB2.set 0 "b" "en" "B2").toOption.map
        (fun s2 => s2.store.map Prod.fst) =
      some ([(make_key "b" "en", entryFor "B")].map Prod.fst) ∧
    (cacheAB10.get 5 "a" "en").2.store.getLast? =
      some (make_key "a" "en", entryFor "A") :=
  ⟨(set_recency_contract cacheAB10 0 "c" "en" "C" "auto" none).1
      (by decide) (by decide),
   (set_recency_contract cacheAB10 0 "a" "en" "A2" "auto" none).2.1
      (by decide) (by decide),
   (set_recency_contract cacheAB2 0 "a" "en" "A2" "auto" none).2.2.1
      (make_key "a" "en", entryFor "A") [(make_key "b" "en", entryFor "B")]
      (by decide) (by decide) (by decide),
   (set_recency_contract cacheAB2 0 "b" "en" "B2" "auto" none).2.2.2.1
      (make_key "a" "en", entryFor "A") [(make_key "b" "en", entryFor "B")]
      (by decide) (by decide) (by decide),
   (set_recency_contract cacheAB10 5 "a" "en" "A2" "auto" none).2.2.2.2
      (entryFor "A") (by decide) (by decide)⟩

/-! ## C4 — totality of the cache operations -/

/-- C4 counterexample: with `max_size = 0` and an empty store, `set`
raises `StopIteration` (from `next(iter(self._cache))`) instead of
returning normally. -/
theorem set_raises_stopiteration_cex :
    cacheEmpty0.set 0 "a" "en" "A" = Except.error "StopIteration" := by
  rw [set_eq_of_empty_overflow rfl (by decide)]

/-- C4 amended: `get`, `clear`, `cleanup_expired`, `get_stats` and
`reset_stats` are total functions by construction; `set` returns normally
whenever `max_size ≥ 1` or the store is non-empty, and raises
`StopIteration` exactly when `max_size ≤ 0` and the store is empty. -/
theorem cache_ops_total_contract (s : TranslationCache) (now : Int)
    (text tl translated src : String) (ttl : Option Int) :
    (1 ≤ s.max_size →
      (s.set now text tl translated src ttl).isOk = true) ∧
    (s.store ≠ [] →
      (s.set now text tl translated src ttl).isOk = true) ∧
    (s.max_size ≤ 0 → s.store = [] →
      s.set now text tl translated src ttl = Except.error "StopIteration") := by
  have hok : s.store ≠ [] ∨ (s.store.length : Int) < s.max_size →
      (s.set now text tl translated src ttl).isOk = true := by
    intro hcase
    by_cases hc : s.max_size ≤ (s.store.length : Int)
    · have hne : s.store ≠ [] := by
        rcases hcase with hne | hlt
        · exact hne
        · intro he
          exact absurd hc (not_le.mpr hlt)
      obtain ⟨p, rest, hstore⟩ : ∃ p rest, s.store = p :: rest := by
        cases hs : s.store with
        | nil => exact absurd hs hne
        | cons p rest => exact ⟨p, rest, rfl⟩
      rw [set_eq_of_full hstore hc]
      rfl
    · rw [set_eq_of_room (not_le.mp hc)]
      rfl
  refine ⟨?_, fun hne => hok (Or.inl hne), fun h1 h2 => set_eq_of_empty_overflow h2 h1⟩
  intro h
  by_cases hne : s.store = []
  · refine hok (Or.inr ?_)
    rw [hne]
    simpa using h
  · exact hok (Or.inl hne)

/-- C4 amended witness: `set` returns normally on an empty cache with
positive capacity, and on a full cache with two entries. -/
theorem cache_ops_total_contract_witness :
    (cacheEmpty5.set 0 "a" "en" "A").isOk = true ∧
    (cacheAB2.set 0 "c" "en" "C").isOk = true :=
  ⟨(cache_ops_total_contract cacheEmpty5 0 "a" "en" "A" "auto" none).1 (by decide),
   (cache_ops_total_contract cacheAB2 0 "c" "en" "C" "auto" none).2.1 (by decide)⟩

/-! ## Resolver lemmas -/

theorem normalize_eq_of_code (dir : List (String × String)) (s : String)
    (h : dir.any (fun p => p.1 == canon s) = true) :
    Translator.normalize_language dir s = some (canon s) := by
  simp only [Translator.normalize_language, h, if_true]

theorem normalize_eq_of_not_code (dir : List (String × String)) (s : String)
    (h : dir.any (fun p => p.1 == canon s) = false) :
    Translator.normalize_language dir s =
      (match reverseLookup dir (canon s) with
       | some code => some code
       | none =>
           if strContains (canon s) "chinese" ||
               canon s == "zh" || canon s == "ch" then
             some "chinese (simplified)"
           else none) := by
  simp only [Translator.normalize_language, h, Bool.false_eq_true, if_false]

theorem reverseLookup_of_contains (dir : List (String × String)) (t : String)
    (hinf : strContains t "chinese" = true) :
    reverseLookup dir t = none ∨
    reverseLookup dir t = some "chinese (simplified)" := by
  induction dir with
  | nil => exact Or.inl rfl
  | cons p rest ih =>
      obtain ⟨code, name⟩ := p
      simp only [reverseLookup]
      by_cases hb : (pyLower name == t) = true
      · rw [if_pos hb]
        right
        have he : pyLower name = t := beq_iff_eq.mp hb
        rw [if_pos (by rw [he]; exact hinf)]

      · rw [if_neg hb]
        exact ih

theorem reverseLookup_none_of_no_name (dir : List (String × String)) (t : String)
    (h : ∀ p ∈ dir, pyLower p.2 ≠ t) :
    reverseLookup dir t = none := by
  induction dir with
  | nil => rfl
  | cons p rest ih =>
      obtain ⟨code, name⟩ := p
      simp only [reverseLookup]
      rw [if_neg (by simpa [beq_iff_eq] using h (code, name) (List.mem_cons_self _ _))]
      exact ih fun q hq => h q (List.mem_cons_of_mem _ hq)

theorem reverseLookup_result {dir : List (String × String)} {t c : String}
    (h : reverseLookup dir t = some c) :
    c = "chinese (simplified)" ∨ ∃ p ∈ dir, p.1 = c := by
  induction dir with
  | nil => simp [reverseLookup] at h
  | cons p rest ih =>
      obtain ⟨code, name⟩ := p
      simp only [reverseLookup] at h
      by_cases hb : (pyLower name == t) = true
      · rw [if_pos hb] at h
        by_cases hc : strContains (pyLower name) "chinese" = true
        · rw [if_pos hc] at h
          exact Or.inl (Option.some.inj h).symm
        · rw [if_neg hc] at h
          exact Or.inr ⟨(code, name), List.mem_cons_self _ _, Option.some.inj h⟩
      · rw [if_neg hb] at h
        rcases ih h with h1 | ⟨q, hq, hqc⟩
        · exact Or.inl h1
        · exact Or.inr ⟨q, List.mem_cons_of_mem _ hq, hqc⟩

theorem normalize_chinese_simplified_fixed (dir : List (String × String)) :
    Translator.normalize_language dir "chinese (simplified)" =
      some "chinese (simplified)" := by
  have hc : canon "chinese (simplified)" = "chinese (simplified)" := by decide
  by_cases hany :
      dir.any (fun p => p.1 == canon "chinese (simplified)") = true
  · rw [normalize_eq_of_code dir _ hany, hc]
  · rw [normalize_eq_of_not_code dir _ (Bool.eq_false_iff.mpr hany), hc]
    rcases reverseLookup_of_contains dir "chinese (simplified)" (by decide) with hr | hr <;>
      rw [hr]
    rw [if_pos (by decide)]

/-! ## C3 — the Chinese collapse -/

/-- C3 counterexample: `normalize_language("chinese")` returns the literal
display name `"chinese (simplified)"`, which is not a key (language code)
of the code-to-name directory. -/
theorem normalize_chinese_not_code_cex :
    Translator.normalize_language gDir "chinese" = some "chinese (simplified)" ∧
    (gDir.map Prod.fst).contains "chinese (simplified)" = false := by decide

/-- C3 amended: every input whose trimmed lowercased form contains
`"chinese"` (which covers every display name containing `"chinese"`) or
equals `"zh"` or `"ch"` normalizes to the same fixed value — the display
name string `"chinese (simplified)"`, not a key of the directory. -/
theorem normalize_chinese_collapse (s : String)
    (h : strContains (canon s) "chinese" = true ∨
      canon s = "zh" ∨ canon s = "ch") :
    Translator.normalize_language gDir s = some "chinese (simplified)" := by
  rcases h with hinf | hz | hc2
  · have hany : gDir.any (fun p => p.1 == canon s) = false := by
      rw [List.any_eq_false]
      intro p hp hbeq
      have he : p.1 = canon s := beq_iff_eq.mp hbeq
      simp only [gDir, List.mem_cons, List.not_mem_nil, or_false] at hp
      rcases hp with rfl | rfl | rfl | rfl | rfl | rfl <;>
        (rw [← he] at hinf; exact absurd hinf (by decide))
    rw [normalize_eq_of_not_code gDir s hany]
    rcases reverseLookup_of_contains gDir (canon s) hinf with hr | hr <;> rw [hr]
    · rw [hinf]
      simp
  · have hany : gDir.any (fun p => p.1 == canon s) = false := by
      rw [hz]; decide
    rw [normalize_eq_of_not_code gDir s hany, hz]
    decide
  · have hany : gDir.any (fun p => p.1 == canon s) = false := by
      rw [hc2]; decide
    rw [normalize_eq_of_not_code gDir s hany, hc2]
    decide

/-- C3 amended witness: a partial-match Chinese variant that is neither a
code nor a display name collapses to `"chinese (simplified)"`. -/
theorem normalize_chinese_collapse_witness :
    Translator.normalize_language gDir "Mandarin CHINESE" =
      some "chinese (simplified)" :=
  normalize_chinese_collapse "Mandarin CHINESE" (Or.inl (by decide))

/-! ## C7 — the resolver lookup order -/

/-- C7 counterexample: the input `"chinese (traditional)"` exactly equals
the lowercased display name of the entry `("zh-tw", "chinese (traditional)")`
and is not a code, yet `normalize_language` does not return that entry's
code `"zh-tw"` — it returns `"chinese (simplified)"`. -/
theorem normalize_name_code_cex :
    (("zh-tw", "chinese (traditional)") ∈ gDir) ∧
    pyLower "chinese (traditional)" = canon "chinese (traditional)" ∧
    gDir.any (fun p => p.1 == canon "chinese (traditional)") = false ∧
    Translator.normalize_language gDir "chinese (traditional)" =
      some "chinese (simplified)" ∧
    "chinese (simplified)" ≠ "zh-tw" := by decide

/-- C7 amended: `normalize_language` trims and lowercases its input; an
exact code match is returned unchanged; otherwise an exact lowercased
display-name match returns that entry's code unless the display name
contains `"chinese"`, in which case `"chinese (simplified)"` is returned;
input matching neither a code, a display name, nor the Chinese fallback —
including empty and whitespace-only input — yields the not-found value
`none`. -/
theorem normalize_contract :
    (∀ (dir : List (String × String)) (s : String),
      dir.any (fun p => p.1 == canon s) = true →
      Translator.normalize_language dir s = some (canon s)) ∧
    (∀ s code name : String,
      gDir.any (fun p => p.1 == canon s) = false →
      (code, name) ∈ gDir → pyLower name = canon s →
      strContains (pyLower name) "chinese" = false →
      Translator.normalize_language gDir s = some code) ∧
    (∀ s code name : String,
      gDir.any (fun p => p.1 == canon s) = false →
      (code, name) ∈ gDir → pyLower name = canon s →
      strContains (pyLower name) "chinese" = true →
      Translator.normalize_language gDir s = some "chinese (simplified)") ∧
    (∀ s : String,
      gDir.any (fun p => p.1 == canon s) = false →
      (∀ p ∈ gDir, pyLower p.2 ≠ canon s) →
      strContains (canon s) "chinese" = false →
      canon s ≠ "zh" → canon s ≠ "ch" →
      Translator.normalize_language gDir s = none) ∧
    (Translator.normalize_language gDir "" = none ∧
     Translator.normalize_language gDir "   " = none) := by
  refine ⟨fun dir s h => normalize_eq_of_code dir s h, ?_, ?_, ?_, by decide, by decide⟩
  · intro s code name hany hmem hname hnoch
    simp only [gDir, List.mem_cons, List.not_mem_nil, or_false,
      Prod.mk.injEq] at hmem
    rcases hmem with ⟨rfl, rfl⟩ | ⟨rfl, rfl⟩ | ⟨rfl, rfl⟩ | ⟨rfl, rfl⟩ |
        ⟨rfl, rfl⟩ | ⟨rfl, rfl⟩ <;>
      first
        | exact absurd hnoch (by decide)
        | (rw [normalize_eq_of_not_code gDir s hany, ← hname]; decide)
  · intro s code name hany hmem hname hch
    simp only [gDir, List.mem_cons, List.not_mem_nil, or_false,
      Prod.mk.injEq] at hmem
    rcases hmem with ⟨rfl, rfl⟩ | ⟨rfl, rfl⟩ | ⟨rfl, rfl⟩ | ⟨rfl, rfl⟩ |
        ⟨rfl, rfl⟩ | ⟨rfl, rfl⟩ <;>
      first
        | exact absurd hch (by decide)
        | (rw [normalize_eq_of_not_code gDir s hany, ← hname]; decide)
  · intro s hany hnames hinf hzh hch
    rw [normalize_eq_of_not_code gDir s hany,
      reverseLookup_none_of_no_name gDir (canon s) hnames]
    rw [hinf, beq_eq_false_iff_ne.mpr hzh, beq_eq_false_iff_ne.mpr hch]
    simp

/-- C7 amended witness: a code round-trips, a display name maps to its
code, and an unknown word is not found. -/
theorem normalize_contract_witness :
    Translator.normalize_language gDir " ES " = some (canon " ES ") ∧
    Translator.normalize_language gDir "English" = some "en" ∧
    Translator.normalize_language gDir "klingon" = none :=
  ⟨normalize_contract.1 gDir " ES " (by decide),
   normalize_contract.2.1 "English" "en" "english"
     (by decide) (by decide) (by decide) (by decide),
   normalize_contract.2.2.2.1 "klingon"
     (by decide) (by decide) (by decide) (by decide) (by decide)⟩

/-! ## C10 — idempotence of the resolver -/

/-- C10: over any directory whose keys (codes) are already trimmed and
lowercased — as the `googletrans` directory's are — `normalize_language`
is idempotent: whenever it returns a value `v`, normalizing `v` again
returns `v`. -/
theorem normalize_idempotent (dir : List (String × String)) (s v : String)
    (hkeys : ∀ p ∈ dir, canon p.1 = p.1)
    (hv : Translator.normalize_language dir s = some v) :
    Translator.normalize_language dir v = some v := by
  by_cases hany : dir.any (fun p => p.1 == canon s) = true
  · rw [normalize_eq_of_code dir s hany] at hv
    obtain rfl : canon s = v := Option.some.inj hv
    obtain ⟨p, hp, hbeq⟩ := List.any_eq_true.mp hany
    have hpk : p.1 = canon s := beq_iff_eq.mp hbeq
    have hcc : canon (canon s) = canon s := by
      rw [← hpk]
      exact hkeys p hp
    have hany2 : dir.any (fun q => q.1 == canon (canon s)) = true := by
      rw [hcc]
      exact hany
    rw [normalize_eq_of_code dir (canon s) hany2, hcc]
  · rw [normalize_eq_of_not_code dir s (Bool.eq_false_iff.mpr hany)] at hv
    cases hr : reverseLookup dir (canon s) with
    | some c =>
        rw [hr] at hv
        obtain rfl : c = v := Option.some.inj hv
        rcases reverseLookup_result hr with rfl | ⟨p, hp, hpc⟩
        · exact normalize_chinese_simplified_fixed dir
        · have hc : canon c = c := by
            rw [← hpc]
            exact hkeys p hp
          have hany2 : dir.any (fun q => q.1 == canon c) = true :=
            List.any_eq_true.mpr ⟨p, hp, beq_iff_eq.mpr (by rw [hc, hpc])⟩
          rw [normalize_eq_of_code dir c hany2, hc]
    | none =>
        rw [hr] at hv
        by_cases hcond : (strContains (canon s) "chinese" ||
            canon s == "zh" || canon s == "ch") = true
        · rw [if_pos hcond] at hv
          obtain rfl : "chinese (simplified)" = v := Option.some.inj hv
          exact normalize_chinese_simplified_fixed dir
        · rw [if_neg hcond] at hv
          exact absurd hv (by simp)

/-- C10 witness: `"English"` normalizes to `"en"` over the modelled
directory (whose codes are canonical), and `"en"` re-normalizes to
itself. -/
theorem normalize_idempotent_witness :
    Translator.normalize_language gDir "en" = some "en" :=
  normalize_idempotent gDir "English" "en" (by decide) (by decide)

/-! ## C6 — no negative caching -/

theorem get_fst_none_of_lookup_none {s : TranslationCache} {now : Int}
    {text tl : String}
    (h : lookupEntry (make_key text tl) s.store = none) :
    (s.get now text tl).1 = none := by
  rw [get_eq_of_none h]

theorem get_miss_key_absent {s : TranslationCache} {now : Int}
    {text tl : String} (hnd : (s.store.map Prod.fst).Nodup)
    (h : (s.get now text tl).1 = none) :
    lookupEntry (make_key text tl) (s.get now text tl).2.store = none := by
  cases hl : lookupEntry (make_key text tl) s.store with
  | none =>
      rw [get_eq_of_none hl]
      exact hl
  | some e =>
      by_cases hx : e.is_expired now = true
      · rw [get_eq_of_expired hl hx]
        exact lookupEntry_eraseKey_self hnd
      · rw [get_eq_of_valid hl (Bool.eq_false_iff.mpr hx)] at h
        exact absurd h (by simp)

/-- C6: if the text survives the emptiness checks and the cleaning step,
the cache misses, and the outbound translate call fails, then
`_do_translate` propagates exactly that failure, writes no entry for the
`(cleaned text, language)` pair, and a subsequent `get` for that pair
still returns absent. -/
theorem do_translate_no_negative_caching
    (dir : List (String × String))
    (api : String → String → String → Except ApiFailure String)
    (s : TranslationCache) (now : Int) (text tl src : String)
    (e : TranslateError)
    (hnd : (s.store.map Prod.fst).Nodup)
    (htext : (text == "" || pyStrip text == "") = false)
    (hclean : (clean_text text == "") = false)
    (hmiss : (s.get now (clean_text text) tl).1 = none)
    (herr : Translator.translate dir api (clean_text text) tl src =
      Except.error e) :
    (Translation.do_translate dir api s now text tl src).1 =
      Except.error (DoFailure.translate_failure e) ∧
    lookupEntry (make_key (clean_text text) tl)
      (Translation.do_translate dir api s now text tl src).2.store = none ∧
    (∀ t2 : Int,
      ((Translation.do_translate dir api s now text tl src).2.get
        t2 (clean_text text) tl).1 = none) := by
  have hdo : Translation.do_translate dir api s now text tl src =
      (Except.error (DoFailure.translate_failure e),
        (s.get now (clean_text text) tl).2) := by
    simp only [Translation.do_translate, htext, Bool.false_eq_true, if_false,
      hclean, hmiss, herr]
  have habsent : lookupEntry (make_key (clean_text text) tl)
      (s.get now (clean_text text) tl).2.store = none :=
    get_miss_key_absent hnd hmiss
  refine ⟨by rw [hdo], by rw [hdo]; exact habsent, fun t2 => ?_⟩
  rw [hdo]
  exact get_fst_none_of_lookup_none habsent

/-- C6 witness: on an empty cache, a failing service call leaves the error
to the caller, no entry for `("hola", "en")`, and a later `get` misses. -/
theorem do_translate_no_negative_caching_witness :
    (Translation.do_translate gDir apiFail cacheEmpty5 0 "hola" "en" "auto").1 =
      Except.error (DoFailure.translate_failure (TranslateError.api_error "boom")) ∧
    lookupEntry (make_key (clean_text "hola") "en")
      (Translation.do_translate gDir apiFail cacheEmpty5 0 "hola" "en" "auto").2.store = none ∧
    ((Translation.do_translate gDir apiFail cacheEmpty5 0 "hola" "en" "auto").2.get
      7 (clean_text "hola") "en").1 = none := by
  have h := do_translate_no_negative_caching gDir apiFail cacheEmpty5 0
    "hola" "en" "auto" (TranslateError.api_error "boom")
    (by decide) (by decide) (by decide) (by decide) (by rfl)
  exact ⟨h.1, h.2.1, h.2.2 7⟩

end Translate
